import Mathlib

/-!
Verification of the protocol_v3 repository: a shallow embedding of
`src/protocol.rs` (binary codec primitives), the code generated by
`src/protocol_v3_macro/src/lib.rs` (tagged-union frame codec), and
`src/server.rs` (WebSocket frame layer, client stream read/send/shutdown,
and the handshake header scanner).

Machine integers are modelled as `Nat` (with explicit bounds where the Rust
type enforces them); `i32` as `Int` with two's-complement byte conversion;
`f32` by its 32-bit big-endian bit pattern (the codec only transports the
bytes of `to_be_bytes` / `from_be_bytes`, which is a bijection on bit
patterns, so this is faithful). Byte buffers and `VecDeque<u8>` cursors are
`List Nat`. Fallible operations return `Except Unit` / `Option`; a Rust
panic (out-of-bounds index, explicit `panic!`) is `Except.error`.
-/

/-! ## Byte-level helpers (big-endian conversion, cursor pops) -/

/-- Big-endian byte encoding of `v` in exactly `w` bytes
(`to_be_bytes` on a `w`-byte integer holding `v`). -/
def beBytes : Nat → Nat → List Nat
  | 0, _ => []
  | w + 1, v => beBytes w (v / 256) ++ [v % 256]

/-- Big-endian byte decoding (`from_be_bytes`). -/
def fromBE (l : List Nat) : Nat :=
  l.foldl (fun a b => a * 256 + b) 0

/-- Pop `n` bytes off the front of a `VecDeque<u8>` cursor, one at a time
(each `pop_front().ok_or(DecodeError)?` in the source); fails if the cursor
is exhausted first. -/
def popN : Nat → List Nat → Except Unit (List Nat × List Nat)
  | 0, s => .ok ([], s)
  | n + 1, s =>
    match s with
    | [] => .error ()
    | b :: r => (popN n r).map (fun p => (b :: p.1, p.2))

theorem beBytes_length (w v : Nat) : (beBytes w v).length = w := by
  induction w generalizing v with
  | zero => rfl
  | succ w ih => simp [beBytes, ih]

theorem fromBE_append_singleton (l : List Nat) (b : Nat) :
    fromBE (l ++ [b]) = fromBE l * 256 + b := by
  simp [fromBE, List.foldl_append]

theorem fromBE_beBytes (w v : Nat) (h : v < 256 ^ w) :
    fromBE (beBytes w v) = v := by
  induction w generalizing v with
  | zero =>
    simp [beBytes, fromBE]
    omega
  | succ w ih =>
    have hdiv : v / 256 < 256 ^ w := by
      rw [Nat.div_lt_iff_lt_mul (by norm_num)]
      calc v < 256 ^ (w + 1) := h
        _ = 256 ^ w * 256 := by ring
    rw [beBytes, fromBE_append_singleton, ih _ hdiv]
    omega

theorem popN_append (bs rest : List Nat) (n : Nat) (h : bs.length = n) :
    popN n (bs ++ rest) = .ok (bs, rest) := by
  induction bs generalizing n with
  | nil => subst h; simp [popN]
  | cons b bs ih =>
    subst h
    simp only [List.length_cons, popN, List.cons_append]
    rw [ih bs.length rfl]
    rfl

/-! ## Primitive value kinds (`src/protocol.rs`, `ProtocolSegment` impls) -/

/-- The primitive field types accepted in a protocol frame variant. -/
inductive FieldType where
  | u8
  | bool
  | u16
  | u32
  | u64
  | i32
  | f32
  | text
deriving DecidableEq, Repr

/-- One primitive value. `vF32` carries the 32-bit pattern of the float;
`vText` carries the UTF-8 bytes of the Rust `String`. -/
inductive FieldValue where
  | vU8 (n : Nat)
  | vBool (b : Bool)
  | vU16 (n : Nat)
  | vU32 (n : Nat)
  | vU64 (n : Nat)
  | vI32 (z : Int)
  | vF32 (bits : Nat)
  | vText (bs : List Nat)
deriving DecidableEq, Repr

/-- Is a lead/continuation byte in the UTF-8 continuation range `0x80..=0xBF`. -/
def contB (b : Nat) : Bool := 128 ≤ b && b ≤ 191

/-- UTF-8 validity of a byte sequence, as checked by Rust's
`String::from_utf8` (RFC 3629: no overlong forms, no surrogates,
maximum U+10FFFF). -/
def validUtf8 : List Nat → Bool
  | [] => true
  | b :: rest =>
    if b ≤ 127 then validUtf8 rest
    else if b < 194 then false
    else if b ≤ 223 then
      match rest with
      | c1 :: r => contB c1 && validUtf8 r
      | _ => false
    else if b ≤ 239 then
      match rest with
      | c1 :: c2 :: r =>
        (if b = 224 then 160 ≤ c1 && c1 ≤ 191
         else if b = 237 then 128 ≤ c1 && c1 ≤ 159
         else contB c1) && contB c2 && validUtf8 r
      | _ => false
    else if b ≤ 244 then
      match rest with
      | c1 :: c2 :: c3 :: r =>
        (if b = 240 then 144 ≤ c1 && c1 ≤ 191
         else if b = 244 then 128 ≤ c1 && c1 ≤ 143
         else contB c1) && contB c2 && contB c3 && validUtf8 r
      | _ => false
    else false

/-- Whether a `FieldValue` inhabits a `FieldType`; this records exactly the
invariants the corresponding Rust type carries (`u8` fits in a byte, a
`String`'s bytes are valid UTF-8, ...). The byte *length* of a `String` is
unconstrained in Rust, which matters below. -/
def typedB : FieldValue → FieldType → Bool
  | .vU8 n, .u8 => decide (n < 256)
  | .vBool _, .bool => true
  | .vU16 n, .u16 => decide (n < 65536)
  | .vU32 n, .u32 => decide (n < 4294967296)
  | .vU64 n, .u64 => decide (n < 18446744073709551616)
  | .vI32 z, .i32 => decide (-2147483648 ≤ z) && decide (z < 2147483648)
  | .vF32 b, .f32 => decide (b < 4294967296)
  | .vText bs, .text => bs.all (fun b => decide (b < 256)) && validUtf8 bs
  | _, _ => false

/-- `ProtocolSegment::encode` of `src/protocol.rs`, one case per impl.
`u8`/`bool` push one byte; the fixed-width integers/float push their
`to_be_bytes`; `String` pushes `(self.len() as u16).to_be_bytes()` (note:
the length is truncated mod 2^16 by the `as u16` cast) followed by all of
the string's bytes. -/
def protocol_encode : FieldValue → List Nat
  | .vU8 n => [n]
  | .vBool b => [if b then 1 else 0]
  | .vU16 n => beBytes 2 n
  | .vU32 n => beBytes 4 n
  | .vU64 n => beBytes 8 n
  | .vI32 z => beBytes 4 (z % 4294967296).toNat
  | .vF32 bits => beBytes 4 bits
  | .vText bs => beBytes 2 (bs.length % 65536) ++ bs

/-- `ProtocolSegment::decode` of `src/protocol.rs`: pops the required bytes
off the front of the cursor (failing with `DecodeError` when exhausted) and
rebuilds the value with `from_be_bytes`; `String` reads a 2-byte length,
checks that many bytes remain, drains them and validates UTF-8. -/
def protocol_decode : FieldType → List Nat → Except Unit (FieldValue × List Nat)
  | .u8, s => (popN 1 s).map (fun p => (.vU8 (fromBE p.1), p.2))
  | .bool, s => (popN 1 s).map (fun p => (.vBool (fromBE p.1 == 1), p.2))
  | .u16, s => (popN 2 s).map (fun p => (.vU16 (fromBE p.1), p.2))
  | .u32, s => (popN 4 s).map (fun p => (.vU32 (fromBE p.1), p.2))
  | .u64, s => (popN 8 s).map (fun p => (.vU64 (fromBE p.1), p.2))
  | .i32, s =>
    (popN 4 s).map (fun p =>
      (.vI32 (if fromBE p.1 < 2147483648 then (fromBE p.1 : Int)
              else (fromBE p.1 : Int) - 4294967296), p.2))
  | .f32, s => (popN 4 s).map (fun p => (.vF32 (fromBE p.1), p.2))
  | .text, s =>
    match popN 2 s with
    | .error e => .error e
    | .ok (lenbs, r) =>
      let len := fromBE lenbs
      if len ≤ r.length then
        if validUtf8 (r.take len) then .ok (.vText (r.take len), r.drop len)
        else .error ()
      else .error ()

/-- Whether a text value fits the 2-byte length prefix; the other kinds
have no extra constraint. The Rust code does not enforce this. -/
def textLenOkB : FieldValue → Bool
  | .vText bs => decide (bs.length ≤ 65535)
  | _ => true

/-- The declared encoding width from the specification's width table:
1/2/4/8 bytes fixed, or 2 + byte-length for text. -/
def declaredWidth : FieldType → FieldValue → Nat
  | .u8, _ => 1
  | .bool, _ => 1
  | .u16, _ => 2
  | .u32, _ => 4
  | .u64, _ => 8
  | .i32, _ => 4
  | .f32, _ => 4
  | .text, v =>
    match v with
    | .vText bs => 2 + bs.length
    | _ => 2

/-! ## Segment round-trip helper -/

/-- Round trip for one primitive segment, with the trailing cursor
untouched: decoding the encoding of a well-typed value whose text length
fits the prefix gives the value back and consumes exactly its bytes. -/
theorem protocol_decode_encode (t : FieldType) (v : FieldValue) (rest : List Nat)
    (h1 : typedB v t = true) (h2 : textLenOkB v = true) :
    protocol_decode t (protocol_encode v ++ rest) = .ok (v, rest) := by
  cases t <;> cases v <;> try exact Bool.noConfusion h1
  case u8.vU8 n =>
    simp [protocol_encode, protocol_decode, popN, fromBE, Except.map]
  case bool.vBool b =>
    cases b <;>
      simp [protocol_encode, protocol_decode, popN, fromBE, Except.map]
  case u16.vU16 n =>
    simp [typedB] at h1
    rw [protocol_encode, protocol_decode,
      popN_append _ rest 2 (beBytes_length 2 n)]
    simp [fromBE_beBytes 2 n (by norm_num; omega), Except.map]
  case u32.vU32 n =>
    simp [typedB] at h1
    rw [protocol_encode, protocol_decode,
      popN_append _ rest 4 (beBytes_length 4 n)]
    simp [fromBE_beBytes 4 n (by norm_num; omega), Except.map]
  case u64.vU64 n =>
    simp [typedB] at h1
    rw [protocol_encode, protocol_decode,
      popN_append _ rest 8 (beBytes_length 8 n)]
    simp [fromBE_beBytes 8 n (by norm_num; omega), Except.map]
  case f32.vF32 bits =>
    simp [typedB] at h1
    rw [protocol_encode, protocol_decode,
      popN_append _ rest 4 (beBytes_length 4 bits)]
    simp [fromBE_beBytes 4 bits (by norm_num; omega), Except.map]
  case i32.vI32 z =>
    simp [typedB] at h1
    rw [protocol_encode, protocol_decode,
      popN_append _ rest 4 (beBytes_length 4 _)]
    have hnn : (0 : Int) ≤ z % 4294967296 := Int.emod_nonneg z (by norm_num)
    have hlt : z % 4294967296 < 4294967296 := Int.emod_lt_of_pos z (by norm_num)
    simp only [Except.map]
    rw [fromBE_beBytes 4 _ (by norm_num; omega)]
    simp only [Except.ok.injEq, Prod.mk.injEq, FieldValue.vI32.injEq, and_true]
    split
    · next hbr => omega
    · next hbr => omega
  case text.vText bs =>
    simp [typedB] at h1
    simp only [textLenOkB, decide_eq_true_eq] at h2
    have hmod : bs.length % 65536 < 65536 := Nat.mod_lt _ (by norm_num)
    have hpop : popN 2 (beBytes 2 bs.length ++ (bs ++ rest)) =
        .ok (beBytes 2 bs.length, bs ++ rest) :=
      popN_append _ _ 2 (beBytes_length 2 _)
    have hfrom : fromBE (beBytes 2 bs.length) = bs.length :=
      fromBE_beBytes 2 _ (by norm_num; omega)
    have hlen : bs.length % 65536 = bs.length := Nat.mod_eq_of_lt (by omega)
    have htake : (bs ++ rest).take bs.length = bs := List.take_left bs rest
    have hdrop : (bs ++ rest).drop bs.length = rest := List.drop_left bs rest
    simp [protocol_encode, protocol_decode, hpop, hfrom, hlen, htake, hdrop, h1.2]

/-- Encoding length of a well-typed primitive matches the declared width. -/
theorem protocol_encode_length (t : FieldType) (v : FieldValue)
    (h : typedB v t = true) :
    (protocol_encode v).length = declaredWidth t v := by
  cases t <;> cases v <;> try exact Bool.noConfusion h
  all_goals simp [protocol_encode, declaredWidth, beBytes_length]

/-! ## Tagged-union frame codec (code generated by
`src/protocol_v3_macro/src/lib.rs`) -/

/-- A Message Schema: the list of variants in declaration order, each the
ordered list of its field types. The variant at position `i` gets opcode
`i` in the generated codec. -/
abbrev Schema := List (List FieldType)

/-- A message value: the active variant's opcode together with its field
values in order. -/
abbrev Message := Nat × List FieldValue

/-- The derive macro's variant loop: after emitting the encoder/decoder arm
for a variant at opcode `identi`, it panics with a hard cap message when
`identi == 255`, then increments. Modelled as a check returning
`Except.error` for the panic. -/
def deriveLoop : List (List FieldType) → Nat → Except Unit Unit
  | [], _ => .ok ()
  | _ :: vs, identi =>
    if identi = 255 then .error () else deriveLoop vs (identi + 1)

/-- `protocol_frame_derive` succeeds exactly when the variant loop never
hits the 255 panic. -/
def protocol_frame_derive (S : Schema) : Except Unit Unit := deriveLoop S 0

/-- The generated `ProtocolFrame::encode`: push the active variant's
one-byte opcode, then append `protocol_encode` of each field in declared
order. -/
def frame_encode (m : Message) : List Nat :=
  m.1 :: (m.2.map protocol_encode).flatten

/-- Decoding the field list of one variant, short-circuiting on the first
field decode failure (the generated `protocol_decode::<T>(&mut data)?`
sequence). -/
def decode_fields : List FieldType → List Nat → Except Unit (List FieldValue × List Nat)
  | [], s => .ok ([], s)
  | t :: ts, s =>
    match protocol_decode t s with
    | .error e => .error e
    | .ok (v, s') =>
      match decode_fields ts s' with
      | .error e => .error e
      | .ok (vs, s'') => .ok (v :: vs, s'')

/-- The generated `ProtocolFrame::decode`: pop one opcode byte
(`data.pop_front()`), dispatch on it (`Some(0) => ... Some(n-1) => ...`,
anything else `Err(DecodeError)`), decode the matching variant's fields in
order, and silently ignore unread trailing bytes. -/
def frame_decode (S : Schema) (s : List Nat) : Except Unit Message :=
  match s with
  | [] => .error ()
  | b :: rest =>
    match S[b]? with
    | none => .error ()
    | some ts => (decode_fields ts rest).map (fun p => (b, p.1))

/-- Field values matching a variant's field types position by position. -/
def fields_typed : List FieldValue → List FieldType → Bool
  | [], [] => true
  | v :: vs, t :: ts => typedB v t && fields_typed vs ts
  | _, _ => false

/-- A message constructible for a schema: its opcode names an actual
variant and its fields match that variant's types. -/
def msgTypedB (S : Schema) (m : Message) : Bool :=
  match S[m.1]? with
  | some ts => fields_typed m.2 ts
  | none => false

theorem decode_fields_encode (ts : List FieldType) (vs : List FieldValue)
    (rest : List Nat) (h : fields_typed vs ts = true)
    (h2 : vs.all textLenOkB = true) :
    decode_fields ts ((vs.map protocol_encode).flatten ++ rest) = .ok (vs, rest) := by
  induction vs generalizing ts rest with
  | nil =>
    cases ts with
    | nil => simp [decode_fields]
    | cons t ts => exact Bool.noConfusion h
  | cons v vs ih =>
    cases ts with
    | nil => exact Bool.noConfusion h
    | cons t ts =>
      simp only [fields_typed, Bool.and_eq_true] at h
      simp only [List.all_cons, Bool.and_eq_true] at h2
      simp only [List.map_cons, List.flatten_cons, List.append_assoc]
      rw [decode_fields, protocol_decode_encode t v _ h.1 h2.1]
      simp [ih ts rest h.2 h2.2]

theorem deriveLoop_ok_bound (S : List (List FieldType)) :
    ∀ i : Nat, i ≤ 255 → deriveLoop S i = .ok () →
      S.length + i ≤ 255 ∨ S = [] := by
  induction S with
  | nil => intro i _ _; right; rfl
  | cons v vs ih =>
    intro i hi h
    rw [deriveLoop] at h
    split at h
    · exact Except.noConfusion h
    · next hne =>
      have := ih (i + 1) (by omega) h
      left
      rcases this with hb | hnil
      · simp only [List.length_cons]; omega
      · subst hnil; simp; omega

theorem protocol_frame_derive_ok_length (S : Schema)
    (h : protocol_frame_derive S = .ok ()) : S.length ≤ 255 := by
  rcases deriveLoop_ok_bound S 0 (by omega) h with hb | hnil
  · omega
  · subst hnil; simp

/-- Decoding a text segment whose 2-byte length prefix is zero consumes
just the prefix and yields the empty string. -/
theorem protocol_decode_text_zero (R : List Nat) :
    protocol_decode .text (([0, 0] : List Nat) ++ R) = .ok (.vText [], R) := by
  rw [protocol_decode,
    show popN 2 (([0, 0] : List Nat) ++ R) = .ok ([0, 0], R) from rfl]
  simp [fromBE, show validUtf8 [] = true from rfl]

/-- Encoding a 65536-byte string writes a zero length prefix (the
`self.len() as u16` cast truncates) followed by all 65536 bytes. -/
theorem protocol_encode_text_overflow :
    protocol_encode (.vText (List.replicate 65536 65)) =
      [0, 0] ++ List.replicate 65536 65 := by
  rw [protocol_encode, List.length_replicate]
  rw [show beBytes 2 (65536 % 65536) = [0, 0] from rfl]

/-- C6 counterexample: a `String` of 65536 bytes is a constructible value
of the text kind, but `decode(encode(v))` is not `v`: the `as u16` cast in
`String::encode` writes a zero length prefix, so decode returns the empty
string and leaves all 65536 bytes unread on the cursor. -/
theorem C6_counterexample :
    protocol_decode .text
        (protocol_encode (.vText (List.replicate 65536 65)) ++ []) ≠
      .ok (.vText (List.replicate 65536 65), ([] : List Nat)) := by
  rw [List.append_nil, protocol_encode_text_overflow, protocol_decode_text_zero]
  intro hcontra
  rw [Except.ok.injEq, Prod.mk.injEq] at hcontra
  have hlen := congrArg List.length hcontra.2
  rw [List.length_replicate] at hlen
  exact absurd hlen (by norm_num)

/-- C6 (amended): for every primitive kind and every well-typed value of
that kind whose text byte length fits the 2-byte prefix (at most 65535),
`decode(encode(v)) == v`, decode consumes exactly the encoded bytes
(leaving any trailing bytes on the cursor), and the encoding length equals
the declared width (1/2/4/8 fixed, or 2 + byte length for text). The
length restriction is forced by `C6_counterexample`: `String::encode`
truncates the length prefix with an `as u16` cast instead of rejecting or
faithfully encoding longer strings. -/
theorem C6_primitive_roundtrip (t : FieldType) (v : FieldValue)
    (rest : List Nat) (h1 : typedB v t = true) (h2 : textLenOkB v = true) :
    protocol_decode t (protocol_encode v ++ rest) = .ok (v, rest) ∧
    (protocol_encode v).length = declaredWidth t v :=
  ⟨protocol_decode_encode t v rest h1 h2, protocol_encode_length t v h1⟩

/-- Witness for `C6_primitive_roundtrip` at a concrete input. -/
theorem C6_primitive_roundtrip_witness :
    typedB (.vU16 513) .u16 = true ∧ textLenOkB (.vU16 513) = true ∧
    (protocol_decode .u16 (protocol_encode (.vU16 513) ++ [7]) =
        .ok (.vU16 513, [7]) ∧
      (protocol_encode (.vU16 513)).length = declaredWidth .u16 (.vU16 513)) :=
  ⟨by decide, by decide,
    C6_primitive_roundtrip .u16 (.vU16 513) [7] (by decide) (by decide)⟩

set_option maxRecDepth 8192 in
/-- C5 counterexample: a schema with exactly 256 variants is not
supported — the derive macro's variant loop panics ("hard cap of 255 frame
types") when it reaches the variant with opcode 255, so no codec is
generated for such a schema. -/
theorem C5_counterexample :
    protocol_frame_derive (List.replicate 256 ([] : List FieldType)) =
      .error () :=
  rfl

/-- C1 counterexample: with the one-variant schema `[[text]]`, the message
carrying a 65536-byte string is constructible, but decode of its encoding
returns the message with the empty string instead (the truncated zero
length prefix; the 65536 unread bytes are silently ignored as trailing
data), so `decode(encode(m)) ≠ m`. -/
theorem C1_counterexample :
    frame_decode [[.text]]
        (frame_encode (0, [.vText (List.replicate 65536 65)])) ≠
      .ok (0, [.vText (List.replicate 65536 65)]) := by
  have he : frame_encode (0, [.vText (List.replicate 65536 65)]) =
      0 :: ([0, 0] ++ List.replicate 65536 65) := by
    rw [frame_encode]
    show 0 :: (protocol_encode (.vText (List.replicate 65536 65)) ++ []) = _
    rw [List.append_nil, protocol_encode_text_overflow]
  have hd : ∀ R : List Nat, frame_decode [[.text]] (0 :: ([0, 0] ++ R)) =
      .ok (0, [.vText []]) := by
    intro R
    have h1 : frame_decode [[.text]] (0 :: ([0, 0] ++ R)) =
        (decode_fields [.text] ([0, 0] ++ R)).map (fun p => (0, p.1)) := rfl
    have h2 : decode_fields [FieldType.text] ([0, 0] ++ R) =
        match protocol_decode .text ([0, 0] ++ R) with
        | .error e => .error e
        | .ok (v, s') =>
          match decode_fields [] s' with
          | .error e => .error e
          | .ok (vs, s'') => .ok (v :: vs, s'') := rfl
    rw [h1, h2, protocol_decode_text_zero]
    rfl
  rw [he, hd]
  intro hcontra
  rw [Except.ok.injEq, Prod.mk.injEq, List.cons.injEq,
    FieldValue.vText.injEq] at hcontra
  have hlen := congrArg List.length hcontra.2.1.symm
  rw [List.length_replicate] at hlen
  exact absurd hlen (by norm_num)

/-- C1 (amended): for every schema accepted by the derive macro and every
constructible message whose text fields each have byte length at most
65535, `decode(encode(m)) == m`. The text length restriction is forced by
`C1_counterexample`. -/
theorem C1_roundtrip (S : Schema) (m : Message)
    (hS : protocol_frame_derive S = .ok ())
    (hm : msgTypedB S m = true) (htext : m.2.all textLenOkB = true) :
    frame_decode S (frame_encode m) = .ok m := by
  obtain ⟨tag, vs⟩ := m
  simp only [msgTypedB] at hm
  cases hts : S[tag]? with
  | none => rw [hts] at hm; exact Bool.noConfusion hm
  | some ts =>
    rw [hts] at hm
    have hfields := decode_fields_encode ts vs [] hm htext
    rw [List.append_nil] at hfields
    rw [frame_encode, frame_decode]
    simp only [hts, hfields, Except.map]

/-- Witness for `C1_roundtrip` at a concrete schema and message. -/
theorem C1_roundtrip_witness :
    protocol_frame_derive [[.u8], [.text, .bool]] = .ok () ∧
    msgTypedB [[.u8], [.text, .bool]] (1, [.vText [72, 105], .vBool true]) = true ∧
    ([FieldValue.vText [72, 105], FieldValue.vBool true].all textLenOkB = true) ∧
    frame_decode [[.u8], [.text, .bool]]
        (frame_encode (1, [.vText [72, 105], .vBool true])) =
      .ok (1, [.vText [72, 105], .vBool true]) :=
  ⟨rfl, by decide, by decide,
    C1_roundtrip [[.u8], [.text, .bool]] (1, [.vText [72, 105], .vBool true])
      rfl (by decide) (by decide)⟩

/-- C5 (amended): decoding fails with `DecodeError` whenever the first
byte is not the opcode of any variant; since the derive macro accepts at
most 255 variants (opcodes 0..=254, see `C5_counterexample`), byte 255 in
particular always fails for every schema the macro accepts. -/
theorem C5_unknown_opcode (S : Schema) (b : Nat) (bytes : List Nat)
    (hS : protocol_frame_derive S = .ok ()) (hb : S.length ≤ b) :
    frame_decode S (b :: bytes) = .error () ∧
    frame_decode S (255 :: bytes) = .error () := by
  have h255 : S.length ≤ 255 := protocol_frame_derive_ok_length S hS
  constructor
  · rw [frame_decode, List.getElem?_eq_none hb]
  · rw [frame_decode, List.getElem?_eq_none h255]

/-- Witness for `C5_unknown_opcode` at a concrete schema. -/
theorem C5_unknown_opcode_witness :
    protocol_frame_derive [[FieldType.u8]] = .ok () ∧
    ([[FieldType.u8]] : Schema).length ≤ 5 ∧
    (frame_decode [[FieldType.u8]] [5] = .error () ∧
      frame_decode [[FieldType.u8]] [255] = .error ()) :=
  ⟨rfl, by decide, C5_unknown_opcode [[FieldType.u8]] 5 [] rfl (by decide)⟩

/-! ## WebSocket frame layer (`src/server.rs`) -/

/-- The server's fixed inbound payload size ceiling. -/
def PAYLOAD_SIZE_CAP : Nat := 128

/-- `read_exact` into an `n`-byte buffer: succeeds with the first `n`
bytes and the remaining stream, fails (unexpected EOF) if fewer remain. -/
def readExact (n : Nat) (s : List Nat) : Option (List Nat × List Nat) :=
  if n ≤ s.length then some (s.take n, s.drop n) else none

/-- Resolve the payload length from the 7-bit field: 126 reads a 2-byte
big-endian extension, 127 an 8-byte one, anything else is the length
itself. -/
def readLen (p7 : Nat) (s : List Nat) : Option (Nat × List Nat) :=
  if p7 = 126 then (readExact 2 s).map (fun p => (fromBE p.1, p.2))
  else if p7 = 127 then (readExact 8 s).map (fun p => (fromBE p.1, p.2))
  else some (p7, s)

/-- The masking loop `payloadbuf[i] ^= maskingkeybuf[i % 4]`, starting at
byte index `i`. -/
def unmask (mask : List Nat) : Nat → List Nat → List Nat
  | _, [] => []
  | i, b :: bs => (b ^^^ mask.getD (i % 4) 0) :: unmask mask (i + 1) bs

/-- The classified inbound frame (`enum IncomingWebSocketFrame`). -/
inductive IncomingWebSocketFrame where
  | DataFin (p : List Nat)
  | DataUnfin (p : List Nat)
  | Ping
  | Pong
  | Close
deriving DecidableEq, Repr

/-- The opcode classification at the end of `read_in`: 0x9 ping, 0xA
pong, 0x2/0x0 data (fin bit selecting `DataFin`/`DataUnfin`), 0x8 close,
anything else (notably text, 0x1) a `BadFrameError`. -/
def classify (b0 : Nat) (pl : List Nat) : Option IncomingWebSocketFrame :=
  if b0 % 16 = 9 then some .Ping
  else if b0 % 16 = 10 then some .Pong
  else if b0 % 16 = 2 ∨ b0 % 16 = 0 then
    if b0 / 128 % 2 = 0 then some (.DataUnfin pl) else some (.DataFin pl)
  else if b0 % 16 = 8 then some .Close
  else none

open IncomingWebSocketFrame in
/-- `IncomingWebSocketFrame::read_in`: read the 2-byte header; fail if the
mask bit (bit 7 of byte 1) is clear; resolve the payload length
(7-bit / 2-byte / 8-byte); read the 4-byte masking key; fail if the length
exceeds `PAYLOAD_SIZE_CAP` (checked after the masking key is read, before
any payload byte); read and unmask the payload; classify by opcode
(0x9 ping, 0xA pong, 0x2/0x0 data with the fin bit, 0x8 close, anything
else a `BadFrameError`). Returns the frame and the unread remainder of the
stream; `none` models both I/O failure and `BadFrameError`. -/
def read_in (s : List Nat) : Option (IncomingWebSocketFrame × List Nat) :=
  match s with
  | b0 :: b1 :: s1 =>
    if b1 / 128 % 2 = 0 then none
    else
      match readLen (b1 % 128) s1 with
      | none => none
      | some (plen, s2) =>
        match readExact 4 s2 with
        | none => none
        | some (mask, s3) =>
          if PAYLOAD_SIZE_CAP < plen then none
          else
            match readExact plen s3 with
            | none => none
            | some (payload, s4) =>
              (classify b0 (unmask mask 0 payload)).map (fun fr => (fr, s4))
  | _ => none

theorem readExact_append (bs rest : List Nat) (n : Nat) (h : bs.length = n) :
    readExact n (bs ++ rest) = some (bs, rest) := by
  subst h
  rw [readExact, if_pos (by simp)]
  rw [List.take_left, List.drop_left]

/-- C8 (confirmed): an inbound frame whose second header byte has the mask
bit (bit 7) unset fails `read_in` as a protocol violation
(`BadFrameError`), regardless of the first header byte (fin/opcode) and of
everything that follows. -/
theorem C8_mask_unset (b0 b1 : Nat) (rest : List Nat) (h : b1 < 128) :
    read_in (b0 :: b1 :: rest) = none := by
  rw [read_in, if_pos]
  rw [Nat.div_eq_of_lt h]

/-- Witness for `C8_mask_unset`. -/
theorem C8_mask_unset_witness :
    (2 : Nat) < 128 ∧ read_in (130 :: 2 :: [1, 2, 3]) = none :=
  ⟨by decide, C8_mask_unset 130 2 [1, 2, 3] (by decide)⟩

/-- C9 (confirmed): an inbound frame whose declared payload length (after
resolving the 16-bit or 64-bit extended encoding) exceeds
`PAYLOAD_SIZE_CAP` is rejected by `read_in` once the header, extended
length, and 4-byte masking key have been read: the result is `none` for
every suffix that follows the masking key, in particular for the empty
suffix, so no payload byte is ever consumed or even required to be
present. (A 7-bit length is at most 125 and can never exceed the cap of
128.) -/
theorem C9_cap_reject (b0 b1 : Nat) (ext mask suffix : List Nat)
    (hmask : b1 / 128 % 2 = 1)
    (htier : (b1 % 128 = 126 ∧ ext.length = 2) ∨
      (b1 % 128 = 127 ∧ ext.length = 8))
    (hcap : PAYLOAD_SIZE_CAP < fromBE ext) (hm : mask.length = 4) :
    read_in (b0 :: b1 :: (ext ++ (mask ++ suffix))) = none := by
  rw [read_in, if_neg (by omega)]
  rcases htier with ⟨ht, hl⟩ | ⟨ht, hl⟩ <;>
    rw [readLen, ht] <;>
    simp [readExact_append ext (mask ++ suffix) _ hl,
      readExact_append mask suffix 4 hm, hcap]

/-- Witness for `C9_cap_reject`: a declared 16-bit length of 256 with no
payload bytes at all. -/
theorem C9_cap_reject_witness :
    (254 : Nat) / 128 % 2 = 1 ∧
    (((254 : Nat) % 128 = 126 ∧ ([1, 0] : List Nat).length = 2) ∨
      ((254 : Nat) % 128 = 127 ∧ ([1, 0] : List Nat).length = 8)) ∧
    PAYLOAD_SIZE_CAP < fromBE [1, 0] ∧ ([0, 0, 0, 0] : List Nat).length = 4 ∧
    read_in (130 :: 254 :: ([1, 0] ++ ([0, 0, 0, 0] ++ []))) = none :=
  ⟨by decide, Or.inl ⟨by decide, by decide⟩, by decide, by decide,
    C9_cap_reject 130 254 [1, 0] [0, 0, 0, 0] []
      (by decide) (Or.inl ⟨by decide, by decide⟩) (by decide) (by decide)⟩

theorem readExact_le (n : Nat) (s a r : List Nat)
    (h : readExact n s = some (a, r)) : r.length ≤ s.length := by
  rw [readExact] at h
  split at h
  · simp only [Option.some.injEq, Prod.mk.injEq] at h
    rw [← h.2]
    simp [List.length_drop]
  · exact Option.noConfusion h

theorem readLen_le (p7 : Nat) (s : List Nat) (n : Nat) (s2 : List Nat)
    (h : readLen p7 s = some (n, s2)) : s2.length ≤ s.length := by
  rw [readLen] at h
  split at h
  · cases hre : readExact 2 s with
    | none => rw [hre] at h; exact Option.noConfusion h
    | some p =>
      rw [hre] at h
      simp only [Option.map_some', Option.some.injEq, Prod.mk.injEq] at h
      rw [← h.2]
      exact readExact_le 2 s p.1 p.2 (by rw [hre])
  · split at h
    · cases hre : readExact 8 s with
      | none => rw [hre] at h; exact Option.noConfusion h
      | some p =>
        rw [hre] at h
        simp only [Option.map_some', Option.some.injEq, Prod.mk.injEq] at h
        rw [← h.2]
        exact readExact_le 8 s p.1 p.2 (by rw [hre])
    · simp only [Option.some.injEq, Prod.mk.injEq] at h
      rw [← h.2]

/-- A successful `read_in` strictly consumes input: at least the two
header bytes are gone. This is why the read loop terminates. -/
theorem read_in_consumes (s : List Nat) (fr : IncomingWebSocketFrame)
    (s' : List Nat) (h : read_in s = some (fr, s')) : s'.length < s.length := by
  match s with
  | [] => exact Option.noConfusion h
  | [b] => exact Option.noConfusion h
  | b0 :: b1 :: s1 =>
    rw [read_in] at h
    split at h
    · exact Option.noConfusion h
    · split at h
      · exact Option.noConfusion h
      · rename_i plen s2 hl
        split at h
        · exact Option.noConfusion h
        · rename_i mask s3 h4
          split at h
          · exact Option.noConfusion h
          · split at h
            · exact Option.noConfusion h
            · rename_i payload s4 hp
              have hle1 := readLen_le _ _ _ _ hl
              have hle2 := readExact_le _ _ _ _ h4
              have hle3 := readExact_le _ _ _ _ hp
              cases hc : classify b0 (unmask mask 0 payload) with
              | none => rw [hc] at h; exact Option.noConfusion h
              | some c =>
                rw [hc] at h
                simp only [Option.map_some', Option.some.injEq,
                  Prod.mk.injEq] at h
                obtain ⟨-, h2⟩ := h
                subst h2
                simp only [List.length_cons]
                omega

/-- The body of `WebSocketClientStream::read`, with an explicit fuel
argument standing in for the unbounded Rust `loop`: read frames, silently
dropping pings and pongs; on a close frame set the closed flag and append
the close-reply write `[0x8, 0x0]` (`send_close`) to the outbound write
log, then keep looping; accumulate data fragments until a fin-flagged one,
then hand the reassembled buffer to the decoder, yielding `some message`
on success and `none` on decode failure; a failed frame read yields
`none`. Since every frame read strictly consumes stream bytes
(`read_in_consumes`), fuel `rx.length + 1` is never exhausted
(`readLoopF_fuel_irrel` makes the fuel choice irrelevant), so the fuel
branch is unreachable and the model agrees with the unbounded loop. -/
def readLoopF {A : Type} (dec : List Nat → Except Unit A) :
    Nat → List Nat → Bool → List (List Nat) → List Nat →
      Option A × List Nat × Bool × List (List Nat)
  | 0, rx, closed, writes, _ => (none, rx, closed, writes)
  | fuel + 1, rx, closed, writes, acc =>
    match read_in rx with
    | none => (none, rx, closed, writes)
    | some (.Ping, rx') => readLoopF dec fuel rx' closed writes acc
    | some (.Pong, rx') => readLoopF dec fuel rx' closed writes acc
    | some (.Close, rx') => readLoopF dec fuel rx' true (writes ++ [[8, 0]]) acc
    | some (.DataUnfin d, rx') => readLoopF dec fuel rx' closed writes (acc ++ d)
    | some (.DataFin d, rx') =>
      match dec (acc ++ d) with
      | .ok m => (some m, rx', closed, writes)
      | .error _ => (none, rx', closed, writes)

/-- `WebSocketClientStream::read` on a connection state: the stream of
unread inbound bytes, the closed flag, and the log of outbound writes.
Returns the optional decoded message and the updated state. -/
def ws_read {A : Type} (dec : List Nat → Except Unit A) (rx : List Nat)
    (closed : Bool) (writes : List (List Nat)) :
    Option A × List Nat × Bool × List (List Nat) :=
  readLoopF dec (rx.length + 1) rx closed writes []

theorem readLoopF_fuel_irrel {A : Type} (dec : List Nat → Except Unit A) :
    ∀ f g rx closed writes acc, rx.length < f → rx.length < g →
      readLoopF dec f rx closed writes acc =
        readLoopF dec g rx closed writes acc := by
  intro f
  induction f with
  | zero => intro g rx c w acc hf hg; omega
  | succ f ih =>
    intro g rx c w acc hf hg
    cases g with
    | zero => omega
    | succ g =>
      rw [readLoopF, readLoopF]
      cases hri : read_in rx with
      | none => rfl
      | some p =>
        obtain ⟨fr, rx'⟩ := p
        have hlt := read_in_consumes rx fr rx' hri
        cases fr with
        | Ping => exact ih g rx' c w acc (by omega) (by omega)
        | Pong => exact ih g rx' c w acc (by omega) (by omega)
        | Close =>
          exact ih g rx' true (w ++ [[8, 0]]) acc (by omega) (by omega)
        | DataUnfin d => exact ih g rx' c w (acc ++ d) (by omega) (by omega)
        | DataFin d => rfl

/-- Build the wire bytes of one inbound client frame with masking key
`[0,0,0,0]` (an XOR mask of zero leaves the payload bytes unchanged on the
wire, which keeps statements readable; `read_in` still performs its
unmasking pass). Header byte 0 carries the fin bit and opcode; the length
uses the 7-bit form when it fits in 125, else the 16-bit extended form. -/
def mkFrame (fin : Bool) (opcode : Nat) (payload : List Nat) : List Nat :=
  ((if fin then 128 else 0) + opcode) ::
    (if payload.length ≤ 125 then [128 + payload.length]
     else [254, payload.length / 256, payload.length % 256]) ++
    ([0, 0, 0, 0] ++ payload)

theorem getD_four_zeros (j : Nat) : ([0, 0, 0, 0] : List Nat).getD j 0 = 0 := by
  match j with
  | 0 => rfl
  | 1 => rfl
  | 2 => rfl
  | 3 => rfl
  | j + 4 => rfl

theorem unmask_zero (i : Nat) (p : List Nat) : unmask [0, 0, 0, 0] i p = p := by
  induction p generalizing i with
  | nil => rfl
  | cons b bs ih => rw [unmask, getD_four_zeros, Nat.xor_zero, ih]

theorem read_in_mkFrame (fin : Bool) (op : Nat) (p rest : List Nat)
    (hcap : p.length ≤ PAYLOAD_SIZE_CAP) :
    read_in (mkFrame fin op p ++ rest) =
      (classify ((if fin then 128 else 0) + op) p).map (fun fr => (fr, rest)) := by
  have hcap' : p.length ≤ 128 := hcap
  by_cases hlen : p.length ≤ 125
  · have hstream : mkFrame fin op p ++ rest =
        ((if fin then 128 else 0) + op) :: (128 + p.length) ::
          ([0, 0, 0, 0] ++ (p ++ rest)) := by
      rw [mkFrame, if_pos hlen]
      simp
    rw [hstream, read_in, if_neg (by omega)]
    rw [readLen, if_neg (by omega), if_neg (by omega)]
    simp only [show (128 + p.length) % 128 = p.length from by omega,
      readExact_append [0, 0, 0, 0] (p ++ rest) 4 rfl,
      readExact_append p rest p.length rfl, unmask_zero,
      if_neg (show ¬ PAYLOAD_SIZE_CAP < p.length from by omega)]
  · have hstream : mkFrame fin op p ++ rest =
        ((if fin then 128 else 0) + op) :: 254 ::
          ([p.length / 256, p.length % 256] ++ ([0, 0, 0, 0] ++ (p ++ rest))) := by
      rw [mkFrame, if_neg hlen]
      simp
    rw [hstream, read_in, if_neg (by omega)]
    rw [readLen, if_pos (by omega)]
    rw [readExact_append [p.length / 256, p.length % 256] _ 2 rfl]
    have hfb : fromBE [p.length / 256, p.length % 256] = p.length := by
      simp [fromBE]
      omega
    simp only [Option.map_some', hfb,
      readExact_append [0, 0, 0, 0] (p ++ rest) 4 rfl,
      readExact_append p rest p.length rfl, unmask_zero,
      if_neg (show ¬ PAYLOAD_SIZE_CAP < p.length from by omega)]

theorem readLoopF_step_unfin {A : Type} (dec : List Nat → Except Unit A)
    (fuel : Nat) (rx rx' d : List Nat) (c : Bool) (w : List (List Nat))
    (acc : List Nat) (h : read_in rx = some (.DataUnfin d, rx')) :
    readLoopF dec (fuel + 1) rx c w acc =
      readLoopF dec fuel rx' c w (acc ++ d) := by
  rw [readLoopF, h]

theorem readLoopF_step_close {A : Type} (dec : List Nat → Except Unit A)
    (fuel : Nat) (rx rx' : List Nat) (c : Bool) (w : List (List Nat))
    (acc : List Nat) (h : read_in rx = some (.Close, rx')) :
    readLoopF dec (fuel + 1) rx c w acc =
      readLoopF dec fuel rx' true (w ++ [[8, 0]]) acc := by
  rw [readLoopF, h]

theorem readLoopF_step_fin {A : Type} (dec : List Nat → Except Unit A)
    (fuel : Nat) (rx rx' d : List Nat) (c : Bool) (w : List (List Nat))
    (acc : List Nat) (h : read_in rx = some (.DataFin d, rx')) :
    readLoopF dec (fuel + 1) rx c w acc =
      (match dec (acc ++ d) with
       | .ok m => (some m, rx', c, w)
       | .error _ => (none, rx', c, w)) := by
  rw [readLoopF, h]

/-- C3 (amended): when `read` encounters a close frame it sets the closed
flag and appends the close-frame reply `[0x8, 0x0]` to the outbound
writes, but then *continues the loop* on the remaining stream (the `Close`
arm has no `break`); the read yields no message only when the stream ends
there (or a later frame read fails) — in particular when the close frame
is the last thing the peer sent. Frames arriving after the close frame are
still processed and can still produce a message (see
`C3_counterexample`). -/
theorem C3_close_behavior {A : Type} (dec : List Nat → Except Unit A)
    (rx rx' : List Nat) (closed : Bool) (writes : List (List Nat))
    (h : read_in rx = some (.Close, rx')) :
    ws_read dec rx closed writes = ws_read dec rx' true (writes ++ [[8, 0]]) ∧
    (rx' = [] → (ws_read dec rx closed writes).1 = none) := by
  have hlt := read_in_consumes rx _ rx' h
  have h1 : ws_read dec rx closed writes =
      readLoopF dec rx.length rx' true (writes ++ [[8, 0]]) [] := by
    rw [ws_read]
    exact readLoopF_step_close dec rx.length rx rx' closed writes [] h
  constructor
  · rw [h1, ws_read]
    exact readLoopF_fuel_irrel dec rx.length (rx'.length + 1) rx' true
      (writes ++ [[8, 0]]) [] hlt (by omega)
  · intro hnil
    subst hnil
    rw [h1]
    rw [readLoopF_fuel_irrel dec rx.length 1 [] true (writes ++ [[8, 0]]) []
      hlt (by decide)]
    rfl

/-- Witness for `C3_close_behavior`: a single well-formed close frame. -/
theorem C3_close_behavior_witness :
    read_in [136, 128, 0, 0, 0, 0] = some (.Close, []) ∧
    (ws_read (frame_decode [[]]) [136, 128, 0, 0, 0, 0] false [] =
        ws_read (frame_decode [[]]) [] true ([] ++ [[8, 0]]) ∧
      (([] : List Nat) = [] →
        (ws_read (frame_decode [[]]) [136, 128, 0, 0, 0, 0] false []).1 =
          none)) :=
  ⟨by decide,
    C3_close_behavior (frame_decode [[]]) [136, 128, 0, 0, 0, 0] [] false []
      (by decide)⟩

/-- C3 counterexample: a close frame followed by a data frame. The claim
says the close is treated as end-of-stream and the read yields no message;
in fact `read` sets the closed flag, sends the close reply, and then
decodes the data frame that arrives *after* the close frame, yielding a
message (here the one-variant schema's message `(0, [])`). -/
theorem C3_counterexample :
    ws_read (frame_decode [[]])
        (mkFrame true 8 [] ++ mkFrame true 2 [0]) false [] =
      (some (0, []), [], true, [[8, 0]]) := by
  decide

/-! ## shutdown (`WebSocketClientStream::shutdown`) -/

/-- The per-connection state visible to `shutdown`: unread inbound bytes,
the closed flag, and the log of (attempted) outbound writes. The
`tx.shutdown()` call has no byte-level effect and is not modelled. -/
structure ConnState where
  rx : List Nat
  closed : Bool
  writes : List (List Nat)
deriving DecidableEq, Repr

/-- `send_close`: write the close frame `[0x8, 0x0]`, ignoring failure. -/
def send_close (st : ConnState) : ConnState :=
  { st with writes := st.writes ++ [[8, 0]] }

/-- The drain loop of `shutdown`: read out at most 10 frames, stopping
early at a read failure or at the peer's close frame. -/
def drainFrames : Nat → List Nat → List Nat
  | 0, rx => rx
  | k + 1, rx =>
    match read_in rx with
    | none => rx
    | some (.Close, rx') => rx'
    | some (_, rx') => drainFrames k rx'

/-- `WebSocketClientStream::shutdown`: a no-op when the closed flag is
already set; otherwise send a close frame, shut down the write half, and
drain up to 10 inbound frames. Note that it never sets the closed flag
itself. -/
def shutdown (st : ConnState) : ConnState :=
  if st.closed then st
  else
    let st1 := send_close st
    { st1 with rx := drainFrames 10 st1.rx }

/-- C4 counterexample: on a connection that never received a close frame
(`closed = false`), a second `shutdown` call is not a no-op: `shutdown`
never sets the closed flag, so the second call repeats the close sequence
and attempts another close-frame write (and re-runs the drain loop). -/
theorem C4_counterexample :
    shutdown (shutdown ⟨[], false, []⟩) ≠ shutdown ⟨[], false, []⟩ := by
  decide

/-- C4 (amended): `shutdown` is a no-op exactly from states whose closed
flag is set (which only `read`'s close handling establishes): it sends no
close frame, performs no writes, and drains no inbound frames. Since
`shutdown` does not set the flag itself, idempotence fails from states
with the flag clear (see `C4_counterexample`). -/
theorem C4_shutdown_closed_noop (st : ConnState) (h : st.closed = true) :
    shutdown st = st := by
  rw [shutdown, if_pos h]

/-- Witness for `C4_shutdown_closed_noop`. -/
theorem C4_shutdown_closed_noop_witness :
    (ConnState.mk [1, 2] true []).closed = true ∧
    shutdown ⟨[1, 2], true, []⟩ = ⟨[1, 2], true, []⟩ :=
  ⟨rfl, C4_shutdown_closed_noop ⟨[1, 2], true, []⟩ rfl⟩

/-! ## Fragmentation (claim C7) -/

/-- The wire bytes of a list of payload fragments, each sent as a non-fin
binary data frame. -/
def unfinWire (pieces : List (List Nat)) : List Nat :=
  (pieces.map (fun p => mkFrame false 2 p)).flatten

theorem readLoopF_unfin {A : Type} (dec : List Nat → Except Unit A)
    (pieces : List (List Nat)) (tail : List Nat) (c : Bool)
    (w : List (List Nat)) :
    ∀ acc : List Nat, (∀ q ∈ pieces, q.length ≤ PAYLOAD_SIZE_CAP) →
      readLoopF dec ((unfinWire pieces ++ tail).length + 1)
          (unfinWire pieces ++ tail) c w acc =
        readLoopF dec (tail.length + 1) tail c w (acc ++ pieces.flatten) := by
  induction pieces with
  | nil => intro acc _; simp [unfinWire]
  | cons q qs ih =>
    intro acc hcap
    have hq : q.length ≤ PAYLOAD_SIZE_CAP := hcap q (by simp)
    have hqs : ∀ r ∈ qs, r.length ≤ PAYLOAD_SIZE_CAP :=
      fun r hr => hcap r (by simp [hr])
    have hw : unfinWire (q :: qs) ++ tail =
        mkFrame false 2 q ++ (unfinWire qs ++ tail) := by
      simp [unfinWire]
    have hread : read_in (mkFrame false 2 q ++ (unfinWire qs ++ tail)) =
        some (.DataUnfin q, unfinWire qs ++ tail) := by
      rw [read_in_mkFrame false 2 q _ hq]
      rfl
    have hpos : 0 < (mkFrame false 2 q).length := by
      rw [mkFrame]
      simp
    have hlt : (unfinWire qs ++ tail).length <
        (mkFrame false 2 q ++ (unfinWire qs ++ tail)).length := by
      simp only [List.length_append]
      omega
    rw [hw, readLoopF_step_unfin dec _ _ _ q c w acc hread]
    rw [readLoopF_fuel_irrel dec _ ((unfinWire qs ++ tail).length + 1) _ c w
      (acc ++ q) hlt (Nat.lt_succ_self _)]
    rw [ih (acc ++ q) hqs]
    rw [List.flatten_cons, List.append_assoc]

/-- C7 (amended): for every payload of length at most the server's
per-frame payload cap (128 bytes) and every way of splitting it into
leading fragments plus a final fin fragment, delivering the fragments as
non-fin data frames followed by the fin frame yields exactly the same read
result (same reassembled payload, hence same decoded message or error, and
same state) as delivering the whole payload in one fin-flagged data frame.
The cap restriction is forced by `C7_counterexample`: the cap is enforced
per frame, so an oversized payload fails as a single frame but succeeds
when fragmented. -/
theorem C7_fragmentation {A : Type} (dec : List Nat → Except Unit A)
    (pieces : List (List Nat)) (last rest : List Nat) (c : Bool)
    (w : List (List Nat))
    (hcap : (pieces.flatten ++ last).length ≤ PAYLOAD_SIZE_CAP) :
    ws_read dec (unfinWire pieces ++ (mkFrame true 2 last ++ rest)) c w =
      ws_read dec (mkFrame true 2 (pieces.flatten ++ last) ++ rest) c w := by
  have hlast : last.length ≤ PAYLOAD_SIZE_CAP := by
    rw [List.length_append] at hcap
    omega
  have hpieces : ∀ q ∈ pieces, q.length ≤ PAYLOAD_SIZE_CAP := by
    intro q hq
    have h1 : q.length ≤ pieces.flatten.length := by
      rw [List.length_flatten]
      exact List.single_le_sum (fun x _ => Nat.zero_le x) _
        (List.mem_map_of_mem List.length hq)
    rw [List.length_append] at hcap
    omega
  have hfin : read_in (mkFrame true 2 last ++ rest) =
      some (.DataFin last, rest) := by
    rw [read_in_mkFrame true 2 last rest hlast]
    rfl
  have hfin2 : read_in (mkFrame true 2 (pieces.flatten ++ last) ++ rest) =
      some (.DataFin (pieces.flatten ++ last), rest) := by
    rw [read_in_mkFrame true 2 (pieces.flatten ++ last) rest hcap]
    rfl
  rw [ws_read, readLoopF_unfin dec pieces (mkFrame true 2 last ++ rest) c w []
    hpieces]
  simp only [List.nil_append]
  rw [readLoopF_step_fin dec _ _ rest last c w pieces.flatten hfin]
  rw [ws_read, readLoopF_step_fin dec _ _ rest (pieces.flatten ++ last) c w []
    hfin2]
  rw [List.nil_append]

/-- Witness for `C7_fragmentation`: `[0x41, 0x42]`-style split — payload
`[0, 66]` sent as fragment `[0]` plus fin fragment `[66]` reads the same
as the unfragmented frame. -/
theorem C7_fragmentation_witness :
    (([([0] : List Nat)].flatten ++ [66]).length ≤ PAYLOAD_SIZE_CAP) ∧
    ws_read (frame_decode [[.u8]])
        (unfinWire [[0]] ++ (mkFrame true 2 [66] ++ [])) false [] =
      ws_read (frame_decode [[.u8]])
        (mkFrame true 2 ([([0] : List Nat)].flatten ++ [66]) ++ []) false [] :=
  ⟨by decide,
    C7_fragmentation (frame_decode [[.u8]]) [[0]] [66] [] false [] (by decide)⟩

set_option maxRecDepth 40000 in
/-- C7 counterexample: a 129-byte payload (one over the 128-byte cap)
delivered as two fragments (1 byte, then 128 bytes — each within the
per-frame cap) reassembles and decodes to a message, while the same bytes
in one fin-flagged frame are rejected by the cap check and the read yields
no message: fragmented and unfragmented delivery are not equivalent for
every payload. -/
theorem C7_counterexample :
    (ws_read (frame_decode [[]])
        (mkFrame false 2 [0] ++ (mkFrame true 2 (List.replicate 128 0) ++ []))
        false []).1 = some (0, []) ∧
    (ws_read (frame_decode [[]])
        (mkFrame true 2 ([0] ++ List.replicate 128 0) ++ []) false []).1 =
      none ∧
    (ws_read (frame_decode [[]])
        (mkFrame false 2 [0] ++ (mkFrame true 2 (List.replicate 128 0) ++ []))
        false []).1 ≠
      (ws_read (frame_decode [[]])
        (mkFrame true 2 ([0] ++ List.replicate 128 0) ++ []) false []).1 := by
  refine ⟨by decide, by decide, ?_⟩
  decide

/-! ## Outbound framing (`WebSocketClientStream::send`) -/

/-- A Rust `Vec` index assignment `buf[i] = v`: panics (modelled as
`Except.error`) when `i` is out of bounds. -/
def vecSet (l : List Nat) (i v : Nat) : Except Unit (List Nat) :=
  if i < l.length then .ok (l.set i v) else .error ()

/-- The header-copy loop `for i in _.. { headerbuf[2 + i] = bytes[i] }`,
running `k` iterations starting at loop index `i`. -/
def copyFrom (bytes : List Nat) : Nat → Nat → List Nat → Except Unit (List Nat)
  | _, 0, buf => .ok buf
  | i, k + 1, buf =>
    match vecSet buf (2 + i) (bytes.getD i 0) with
    | .error e => .error e
    | .ok buf2 => copyFrom bytes (i + 1) k buf2

/-- The header construction in `WebSocketClientStream::send` for an
encoded payload of `len` bytes: allocate `vec![0; 20 / 4 / 2]` depending
on the two extended-length flags, set byte 0 to `0b10000010` (fin set,
opcode 0x2, and — via byte 1's high bit staying 0 — mask unset), set
byte 1 to `127` / `126` / `len`, then copy 8 (for the 64-bit form) or 4
(sic — for the 16-bit form, out of a 4-byte buffer) bytes of
`(len as u64).to_be_bytes()` into positions 2.. . -/
def send_header (len : Nat) : Except Unit (List Nat) :=
  match vecSet
      (List.replicate
        (if 65535 < len then 20 else if 125 < len then 4 else 2) 0)
      0 130 with
  | .error e => .error e
  | .ok buf1 =>
    match vecSet buf1 1
        (if 65535 < len then 127 else if 125 < len then 126 else len) with
    | .error e => .error e
    | .ok buf2 =>
      if 65535 < len then copyFrom (beBytes 8 len) 0 8 buf2
      else if 125 < len then copyFrom (beBytes 8 len) 0 4 buf2
      else .ok buf2

/-- `WebSocketClientStream::send` on an already-encoded payload: build the
header, then perform two writes (header, payload). Returns the write log;
an error is a Rust panic inside the header construction. -/
def send (data : List Nat) : Except Unit (List (List Nat)) :=
  (send_header data.length).map (fun h => [h, data])

set_option maxRecDepth 4096 in
/-- C2: evaluation of the outbound framing code at the three length tiers.
A payload of at most 125 bytes gets the correct 2-byte header
`[0x82, len]` (fin set, opcode 0x2, mask bit unset). But a payload of
126..=65535 bytes makes `send` panic: the loop copies 4 bytes into
`headerbuf[2..6]` with `headerbuf` only 4 bytes long (index out of bounds
at `headerbuf[4]`). And a payload over 65535 bytes produces a 20-byte
header — the marker 127 and 8-byte big-endian length followed by 10
spurious zero bytes that corrupt the frame — instead of the 10-byte
header the three-tier scheme prescribes. -/
theorem C2_send_framing_bug :
    send_header 5 = .ok [130, 5] ∧
    send_header 126 = .error () ∧
    send (List.replicate 126 0) = .error () ∧
    send_header 65536 =
      .ok (130 :: 127 :: (beBytes 8 65536 ++ List.replicate 10 0)) ∧
    (send_header 65536).map List.length = .ok 20 :=
  ⟨rfl, rfl, rfl, rfl, rfl⟩

/-! ## Handshake header scanning (claim C10) -/

/-- The loop body of `count_up_till`, at loop counter `ret`: the source
runs `while vec[ret] != thing { ret += 1; if ret == vec.len() { return
None } }` and then returns `Some(ret)`. The Rust indexing `vec[ret]`
panics (modelled as `Except.error`) when `ret` is out of bounds — which
the loop reaches exactly when `vec` is empty, since the in-loop check
returns `None` before the index can otherwise run off the end. -/
def countUpTillGo (vec : List Nat) (thing : Nat) (ret : Nat) :
    Except Unit (Option Nat) :=
  if h : ret < vec.length then
    if vec.get ⟨ret, h⟩ ≠ thing then
      if ret + 1 = vec.length then .ok none
      else countUpTillGo vec thing (ret + 1)
    else .ok (some ret)
  else .error ()
termination_by vec.length - ret

/-- `count_up_till` of `src/server.rs`. -/
def count_up_till (vec : List Nat) (thing : Nat) : Except Unit (Option Nat) :=
  countUpTillGo vec thing 0

theorem count_up_till_nil (t : Nat) : count_up_till [] t = .error () := by
  rw [count_up_till]
  rw [countUpTillGo]
  rfl

/-- `read_until(delim, buf)`: the chunk up to and including the first
delimiter (or the whole stream if the delimiter never occurs — in
particular the empty chunk at end of stream), plus the unread rest. -/
def read_until (delim : Nat) : List Nat → List Nat × List Nat
  | [] => ([], [])
  | b :: rest =>
    if b = delim then ([b], rest)
    else
      let p := read_until delim rest
      (b :: p.1, p.2)

theorem read_until_rest_le (d : Nat) (s : List Nat) :
    (read_until d s).2.length ≤ s.length := by
  induction s with
  | nil => simp [read_until]
  | cons b r ih =>
    rw [read_until]
    split
    · simp
    · simp only [List.length_cons]
      omega

theorem read_until_rest_lt (d b : Nat) (r : List Nat) :
    (read_until d (b :: r)).2.length < (b :: r).length := by
  rw [read_until]
  split
  · simp
  · simp only [List.length_cons]
    have := read_until_rest_le d r
    omega

/-- The header-scanning loop of `WebSocketServer::handshake`: repeatedly
`read_until(10)` one line and run `count_up_till(line, 32)`; a line with a
space is a header line (name/value parsing elided — it does not affect
control flow), a space-free nonempty line (the blank `\r\n` terminator)
breaks the loop, and an empty line — which `read_until` produces exactly
when the peer ends the stream before the blank terminator — makes
`count_up_till` panic, which propagates out of the handshake. Returns the
header lines read. -/
def header_loop (s : List Nat) : Except Unit (List (List Nat)) :=
  match hc : count_up_till (read_until 10 s).1 32 with
  | .error _ => .error ()
  | .ok none => .ok []
  | .ok (some _) =>
    (header_loop (read_until 10 s).2).map (fun hs => (read_until 10 s).1 :: hs)
termination_by s.length
decreasing_by
  cases s with
  | nil => exact absurd hc (by simp [read_until, count_up_till_nil])
  | cons b r => exact read_until_rest_lt 10 b r

/-- C10 (confirmed): `count_up_till` on the empty vector indexes position
0 with no bounds check and panics instead of returning `None`; hence the
handshake's header loop panics when the peer ends the stream before the
blank terminator line (empty line buffer), instead of answering with an
HTTP error — while a stream that does reach the blank `\r\n` terminator
line exits the loop normally. -/
theorem count_up_till_crlf : count_up_till [13, 10] 32 = .ok none := by
  rw [count_up_till, countUpTillGo]
  simp only [List.length_cons, List.length_nil]
  norm_num
  rw [countUpTillGo]
  norm_num

/-- C10 (confirmed): see the doc comment above `header_loop`. -/
theorem C10_count_up_till_panics :
    count_up_till [] 32 = .error () ∧
    header_loop [] = .error () ∧
    header_loop [13, 10] = .ok [] := by
  refine ⟨count_up_till_nil 32, ?_, ?_⟩
  · rw [header_loop]
    split
    · rfl
    · rename_i heq
      rw [show (read_until 10 []).1 = ([] : List Nat) from rfl,
        count_up_till_nil] at heq
      exact Except.noConfusion heq
    · rename_i heq
      rw [show (read_until 10 []).1 = ([] : List Nat) from rfl,
        count_up_till_nil] at heq
      exact Except.noConfusion heq
  · rw [header_loop]
    split
    · rename_i heq
      rw [show (read_until 10 [13, 10]).1 = ([13, 10] : List Nat) from rfl,
        count_up_till_crlf] at heq
      exact Except.noConfusion heq
    · rfl
    · rename_i heq
      rw [show (read_until 10 [13, 10]).1 = ([13, 10] : List Nat) from rfl,
        count_up_till_crlf] at heq
      injection heq with h2
      exact Option.noConfusion h2
